import Mathlib

/-!
Verification development for the `inachus` contract-interaction CLI.

The Rust sources are shallowly embedded: byte strings become `List Nat`
(each entry is one machine byte, kept below 256 by construction of the
encoders), fallible code returns `Except Error`, and the external alloy
keccak hash is a parameter of every definition that needs it.  All string
manipulation mirrors the Rust `str` primitives used by the source
(`trim`, `trim_matches`, `split(',')`, `trim_start_matches`), reimplemented
on `List Char` so that the embedding is fully executable.
-/

/-- Error taxonomy of the program, from `src/error.rs` together with the
variants that `src/bin/inachus/main.rs` constructs but whose declaration is
not under `src/` (`NoContractSelected`, `ContractNotFound`, `MethodNotFound`,
`NoWalletConfigured`, `UnsupportedType`, `Abi`); those extra variants follow
the spec's error taxonomy (section 7).  Variants carrying foreign error
values (`Io`, `Json`, `Toml`, `Hex`) are omitted: no embedded code path
produces them. -/
inductive Error where
  | InvalidPrivateKey : String → Error
  | InvalidChainId : String → Error
  | InvalidWaitTime : String → Error
  | InvalidContract : String → Error
  | InvalidAddress : String → Error
  | InvalidFunction : String → Error
  | InvalidAbi : String → Error
  | InvalidArguments : String → Error
  | Provider : String → Error
  | Other : String → Error
  | NoContractSelected : Error
  | ContractNotFound : String → Error
  | MethodNotFound : String → Error
  | NoWalletConfigured : Error
  | UnsupportedType : String → Error
  | Abi : String → Error
deriving DecidableEq

instance {ε : Type} {α : Type} [DecidableEq ε] [DecidableEq α] :
    DecidableEq (Except ε α) := fun x y =>
  match x, y with
  | .error a, .error b =>
    if h : a = b then .isTrue (by rw [h]) else
      .isFalse (fun hh => h (by cases hh; rfl))
  | .error _, .ok _ => .isFalse (fun hh => Except.noConfusion hh)
  | .ok _, .error _ => .isFalse (fun hh => Except.noConfusion hh)
  | .ok a, .ok b =>
    if h : a = b then .isTrue (by rw [h]) else
      .isFalse (fun hh => h (by cases hh; rfl))

/-- Rust `char::is_ascii_hexdigit`. -/
def isAsciiHexdigit (c : Char) : Bool :=
  (('0' ≤ c && c ≤ '9') || ('a' ≤ c && c ≤ 'f') || ('A' ≤ c && c ≤ 'F'))

/-- Value of one hexadecimal digit, `none` on a non-hex character
(mirrors the per-character behaviour of the external `hex` crate). -/
def hexDigitVal (c : Char) : Option Nat :=
  if '0' ≤ c && c ≤ '9' then some (c.toNat - 48)
  else if 'a' ≤ c && c ≤ 'f' then some (c.toNat - 87)
  else if 'A' ≤ c && c ≤ 'F' then some (c.toNat - 55)
  else none

/-- Hex-decode a character list two digits at a time.  Odd length or any
non-hex character yields `none`, exactly like `hex::decode` of the external
`hex` crate used by `src/abi.rs` (the spec, section 4.1, requires failure on
non-hex content). -/
def hexDecodePairs : List Char → Option (List Nat)
  | [] => some []
  | [_] => none
  | a :: b :: rest =>
    match hexDigitVal a, hexDigitVal b, hexDecodePairs rest with
    | some x, some y, some tl => some ((x * 16 + y) :: tl)
    | _, _, _ => none

/-- Hex-decode a string, as `hex::decode`. -/
def hexDecodeStr (s : String) : Option (List Nat) :=
  hexDecodePairs s.data

/-- Rust `str::trim_start_matches("0x")`: strips the prefix `0x`
repeatedly, as many times as it occurs. -/
def trimStart0xList : List Char → List Char
  | '0' :: 'x' :: rest => trimStart0xList rest
  | cs => cs

/-- String-level wrapper of `trimStart0xList`. -/
def trimStart0x (s : String) : String :=
  String.mk (trimStart0xList s.data)

/-- Rust `"…".parse::<bool>()`: case-sensitive `true` / `false` only. -/
def parseBool (s : String) : Option Bool :=
  if s = "true" then some true
  else if s = "false" then some false
  else none

/-- Modelled from the spec: `U256::from_str_radix(value, 10)` of the
external alloy crate is not under `src/`; the spec (section 4.1) says the
value "must parse as a base-10 integer fitting in 256 bits" and fail
otherwise, so the model accepts exactly the non-empty all-digit strings
whose value is below `2 ^ 256`. -/
def u256FromDec (s : String) : Option Nat :=
  if s.data.isEmpty then none
  else if !(s.data.all Char.isDigit) then none
  else
    let n := s.data.foldl (fun acc c => acc * 10 + (c.toNat - 48)) 0
    if n < 2 ^ 256 then some n else none

/-- Big-endian byte expansion, most significant byte first, `k` bytes. -/
def toBeAux : Nat → Nat → List Nat
  | 0, _ => []
  | k + 1, n => toBeAux k (n / 256) ++ [n % 256]

/-- Rust `U256::to_be_bytes::<32>()`: the 32-byte big-endian encoding. -/
def toBeBytes32 (n : Nat) : List Nat :=
  toBeAux 32 n

/-- Big-endian integer interpretation of a byte list. -/
def fromBeBytes (bs : List Nat) : Nat :=
  bs.foldl (fun acc b => acc * 256 + b) 0

/-- UTF-8 encoding of one character (Rust `str::as_bytes` is the UTF-8
byte sequence of the text). -/
def utf8EncodeChar (c : Char) : List Nat :=
  let n := c.toNat
  if n < 128 then [n]
  else if n < 2048 then [192 + n / 64, 128 + n % 64]
  else if n < 65536 then [224 + n / 4096, 128 + (n / 64) % 64, 128 + n % 64]
  else [240 + n / 262144, 128 + (n / 4096) % 64, 128 + (n / 64) % 64, 128 + n % 64]

/-- Rust `str::as_bytes` as a byte list. -/
def strBytes (s : String) : List Nat :=
  (s.data.map utf8EncodeChar).flatten

/-- Rust `str::len`: the UTF-8 byte length of a string. -/
def utf8Len (s : String) : Nat :=
  s.data.foldl (fun acc c => acc + (utf8EncodeChar c).length) 0

theorem hexDecodePairs_length :
    ∀ (cs : List Char) (bs : List Nat), hexDecodePairs cs = some bs →
      cs.length = 2 * bs.length
  | [], bs, h => by
    simp only [hexDecodePairs, Option.some.injEq] at h
    subst h; rfl
  | [_], bs, h => by
    simp [hexDecodePairs] at h
  | a :: b :: rest, bs, h => by
    simp only [hexDecodePairs] at h
    cases hva : hexDigitVal a with
    | none => rw [hva] at h; exact absurd h (by simp)
    | some x =>
      cases hvb : hexDigitVal b with
      | none => rw [hva, hvb] at h; exact absurd h (by simp)
      | some y =>
        cases htl : hexDecodePairs rest with
        | none => rw [hva, hvb, htl] at h; exact absurd h (by simp)
        | some tl =>
          rw [hva, hvb, htl] at h
          simp only [Option.some.injEq] at h
          subst h
          have ih := hexDecodePairs_length rest tl htl
          simp [List.length, ih]; omega

/-- Rust `str::trim` restricted to list form: drop whitespace characters
from both ends. -/
def listTrim (cs : List Char) : List Char :=
  ((cs.dropWhile Char.isWhitespace).reverse.dropWhile Char.isWhitespace).reverse

/-- Rust `str::trim_matches(pred)`: drop every leading and trailing
character satisfying the predicate. -/
def trimMatchesList (p : Char → Bool) (cs : List Char) : List Char :=
  ((cs.dropWhile p).reverse.dropWhile p).reverse

/-- Rust `str::split(',')`: always yields at least one part; the empty
string splits into one empty part. -/
def splitOnComma : List Char → List (List Char)
  | [] => [[]]
  | c :: cs =>
    if c = ',' then [] :: splitOnComma cs
    else
      match splitOnComma cs with
      | h :: t => (c :: h) :: t
      | [] => [[c]]

/-- Shared preprocessing of `parse_array_or_slice_input` and
`parse_tuple_input` in `src/abi.rs`: trim the input, strip every leading
and trailing delimiter character, split on commas, trim each part. -/
def partsOf (openC closeC : Char) (input : String) : List String :=
  let cs := trimMatchesList (fun c => c = openC || c = closeC) (listTrim input.data)
  (splitOnComma cs).map (fun p => String.mk (listTrim p))

/-- Error type of alloy's `Address::parse_checksummed`, reduced to the two
outcomes the program distinguishes. -/
inductive AddressError where
  | hexErr : AddressError
  | invalidChecksum : AddressError
deriving DecidableEq

/-- Whether a string starts with the two characters `0x`. -/
def startsWith0x (s : String) : Bool :=
  match s.data with
  | '0' :: 'x' :: _ => true
  | _ => false

/-- Strip one leading `0x`, if present (Rust `str::strip_prefix`). -/
def strip0xOnce (cs : List Char) : List Char :=
  match cs with
  | '0' :: 'x' :: rest => rest
  | other => other

/-- Alloy's `Address` hex parser (`FromStr`): one optional `0x` prefix is
stripped, then exactly 40 hexadecimal digits of either case decode to the
20 address bytes. -/
def addrFromStr (s : String) : Option (List Nat) :=
  if (strip0xOnce s.data).length = 40 then hexDecodePairs (strip0xOnce s.data)
  else none

/-- Lowercase hexadecimal digit character of a value below 16. -/
def lowerHexChar (n : Nat) : Char :=
  if n < 10 then Char.ofNat (48 + n) else Char.ofNat (87 + n)

/-- Lowercase hex character expansion of a byte list, two digits per
byte. -/
def lowerHexOfBytes (bs : List Nat) : List Char :=
  (bs.map (fun b => [lowerHexChar (b / 16), lowerHexChar (b % 16)])).flatten

/-- Nibble `i` of a hash byte list: high nibble of byte `i / 2` for even
`i`, low nibble for odd `i`. -/
def hashNibble (hash : List Nat) (i : Nat) : Nat :=
  if i % 2 = 0 then (hash.getD (i / 2) 0) / 16 else (hash.getD (i / 2) 0) % 16

/-- EIP-55 checksummed rendering of a 20-byte address, as alloy's
`Address::to_checksum` with no chain id: hash the ASCII bytes of the
lowercase hex expansion with keccak-256 (passed in as a parameter, the
hash itself being external) and uppercase every digit whose matching hash
nibble is at least 8 (uppercasing a decimal digit is the identity). -/
def toChecksum (keccak : List Nat → List Nat) (addr : List Nat) : String :=
  let hx := lowerHexOfBytes addr
  let hash := keccak (hx.map Char.toNat)
  "0x" ++ String.mk
    ((hx.enum).map (fun p => if 8 ≤ hashNibble hash p.1 then p.2.toUpper else p.2))

/-- Alloy's `Address::parse_checksummed(s, None)`: requires the `0x`
prefix, a valid 40-digit hex payload, and the exact EIP-55
capitalization. -/
def parse_checksummed (keccak : List Nat → List Nat) (s : String) :
    Except AddressError (List Nat) :=
  if startsWith0x s then
    match addrFromStr s with
    | some bytes =>
      if s = toChecksum keccak bytes then .ok bytes else .error .invalidChecksum
    | none => .error .hexErr
  else .error .hexErr

/-- Scalar codec of `parse_array_or_slice_input` (`src/abi.rs`, the match
over `param_type` applied to each part): address, uint256/int256, bool,
string and bytes, any other tag reporting an unsupported array type. -/
def encodeArrayElem (keccak : List Nat → List Nat) (param_type : String)
    (part : String) : Except Error (List Nat) :=
  match param_type with
  | "address" =>
    match parse_checksummed keccak part with
    | .ok addr => .ok addr
    | .error _ => .error (.InvalidAddress ("Invalid address: " ++ part))
  | "uint256" | "int256" =>
    match u256FromDec part with
    | some num => .ok (toBeBytes32 num)
    | none => .error (.InvalidArguments ("Invalid number: " ++ part))
  | "bool" =>
    match parseBool part with
    | some true => .ok [1]
    | some false => .ok [0]
    | none => .error (.InvalidArguments ("Invalid boolean: " ++ part))
  | "string" => .ok (strBytes part)
  | "bytes" =>
    match hexDecodeStr (trimStart0x part) with
    | some bytes => .ok bytes
    | none => .error (.InvalidArguments ("Invalid hex: " ++ part))
  | _ => .error (.InvalidArguments ("Unsupported array type: " ++ param_type))

/-- Scalar codec of `parse_tuple_input` (`src/abi.rs`): identical arms to
the array codec except for the unsupported-type message. -/
def encodeTupleElem (keccak : List Nat → List Nat) (param_type : String)
    (part : String) : Except Error (List Nat) :=
  match param_type with
  | "address" =>
    match parse_checksummed keccak part with
    | .ok addr => .ok addr
    | .error _ => .error (.InvalidAddress ("Invalid address: " ++ part))
  | "uint256" | "int256" =>
    match u256FromDec part with
    | some num => .ok (toBeBytes32 num)
    | none => .error (.InvalidArguments ("Invalid number: " ++ part))
  | "bool" =>
    match parseBool part with
    | some true => .ok [1]
    | some false => .ok [0]
    | none => .error (.InvalidArguments ("Invalid boolean: " ++ part))
  | "string" => .ok (strBytes part)
  | "bytes" =>
    match hexDecodeStr (trimStart0x part) with
    | some bytes => .ok bytes
    | none => .error (.InvalidArguments ("Invalid hex: " ++ part))
  | _ => .error (.InvalidArguments ("Unsupported tuple type: " ++ param_type))

/-- Embedding of `parse_array_or_slice_input` (`src/abi.rs`, lines
102-142): trim the input, strip the square brackets, split on commas, trim
and encode each part per `param_type`, aborting at the first failure. -/
def parse_array_or_slice_input (keccak : List Nat → List Nat)
    (input param_type : String) : Except Error (List (List Nat)) :=
  (partsOf '[' ']' input).mapM (encodeArrayElem keccak param_type)

/-- Embedding of `parse_tuple_input` (`src/abi.rs`, lines 154-202): trim
the input, strip the parentheses, split on commas; the part count must
equal the type count, then each part is encoded per its positional
type. -/
def parse_tuple_input (keccak : List Nat → List Nat) (input : String)
    (param_types : List String) : Except Error (List (List Nat)) :=
  let parts := partsOf '(' ')' input
  if parts.length ≠ param_types.length then
    .error (.InvalidArguments ("Tuple input length mismatch: expected "
      ++ toString param_types.length ++ ", got " ++ toString parts.length))
  else
    (parts.zip param_types).mapM (fun pt => encodeTupleElem keccak pt.2 pt.1)

/-- State mutability tags of ABI functions (alloy `StateMutability`). -/
inductive StateMutability where
  | pureM : StateMutability
  | view : StateMutability
  | nonpayable : StateMutability
  | payable : StateMutability
deriving DecidableEq

/-- One typed parameter of an ABI method.  `ty` is the declared type tag;
`tupleElems` carries the element type tags when `ty` is a tuple type (the
`tuple_elements` accessor used by `main.rs` is part of the external ABI
catalog; the spec, section 3, describes a tuple parameter as an ordered
list of element specs). -/
structure ParamD where
  name : String
  ty : String
  tupleElems : List String
deriving DecidableEq

/-- One ABI method: name, ordered input parameters and declared state
mutability (the output schema is handled by the external ABI codec). -/
structure FunctionD where
  name : String
  inputs : List ParamD
  state_mutability : StateMutability
deriving DecidableEq

/-- Read / Write / All filter of `src/abi.rs`. -/
inductive MethodType where
  | Read : MethodType
  | Write : MethodType
  | All : MethodType
deriving DecidableEq

/-- Whether a mutability counts as read-only:
`matches!(m, View | Pure)` in `src/abi.rs` and
`is_view() || is_pure()` in `main.rs`. -/
def isReadMut (m : StateMutability) : Bool :=
  m = .view || m = .pureM

/-- A `HashMap<String, Function>` observed through lookup only. -/
def MethodMap : Type := String → Option FunctionD

/-- Empty method map. -/
def mapEmpty : MethodMap := fun _ => none

/-- `HashMap::insert`: the new binding shadows any previous one with the
same key. -/
def mapInsert (m : MethodMap) (k : String) (v : FunctionD) : MethodMap :=
  fun q => if q = k then some v else m q

/-- The three partitions built by one pass of `get_methods_by_type`. -/
structure MethodMaps where
  read : MethodMap
  write : MethodMap
  all : MethodMap

/-- Loop body of `get_methods_by_type` (`src/abi.rs`, lines 72-83). -/
def classifyStep (acc : MethodMaps) (f : FunctionD) : MethodMaps :=
  if isReadMut f.state_mutability then
    { read := mapInsert acc.read f.name f
      write := acc.write
      all := mapInsert acc.all f.name f }
  else
    { read := acc.read
      write := mapInsert acc.write f.name f
      all := mapInsert acc.all f.name f }

/-- Embedding of `get_methods_by_type` (`src/abi.rs`, lines 67-90): one
pass over the ABI's functions builds the read, write and all maps; the
requested filter selects one of them.  The function list stands for the
iteration order of the external ABI catalog. -/
def get_methods_by_type (fns : List FunctionD) (method_type : MethodType) :
    MethodMap :=
  let maps := fns.foldl classifyStep ⟨mapEmpty, mapEmpty, mapEmpty⟩
  match method_type with
  | .Read => maps.read
  | .Write => maps.write
  | .All => maps.all

/-- Last element of the list satisfying the predicate, threading an
accumulator; the reference semantics that a key-shadowing map fold
realizes. -/
def lastMatchingAux (p : FunctionD → Bool) (acc : Option FunctionD) :
    List FunctionD → Option FunctionD
  | [] => acc
  | f :: rest => lastMatchingAux p (if p f then some f else acc) rest

/-- Last element of the list satisfying the predicate, if any. -/
def lastMatching (p : FunctionD → Bool) (fns : List FunctionD) :
    Option FunctionD :=
  lastMatchingAux p none fns

/-- Embedding of `validate_address` (`src/validation.rs`, lines 33-53):
`0x` prefix, byte length 42, hexadecimal digits after the prefix.  No
checksum is computed. -/
def validate_address (address : String) : Except Error Unit :=
  if !(startsWith0x address) then
    .error (.InvalidAddress "Address must start with 0x")
  else if utf8Len address ≠ 42 then
    .error (.InvalidAddress "Address must be 20 bytes (40 hex characters)")
  else if !((address.data.drop 2).all isAsciiHexdigit) then
    .error (.InvalidAddress "Address must be hexadecimal")
  else .ok ()

/-- Embedding of `validate_contract_address` (`src/validation.rs`, lines
155-157): delegate to `validate_address` and replace any failure by
`InvalidContract` carrying the input. -/
def validate_contract_address (address : String) : Except Error Unit :=
  match validate_address address with
  | .ok u => .ok u
  | .error _ => .error (.InvalidContract address)

/-- Modelled from the spec: the Session Context (spec section 3) restricted
to the one field these claims observe; the `Context` type that `main.rs`
consumes is not under `src/`.  `selected_contract_address` is `none` until
a workflow step sets it. -/
structure SessionContext where
  selected_contract_address : Option String
deriving DecidableEq

/-- Embedding of the contract-address selection guard: `main.rs`, line 56,
replaces the session's address only through
`ctx.set_contract_address(Address::parse_checksummed(&address, None)?)`,
and the in-source `GlobalContext::new` (`src/context.rs`, lines 65-66)
performs the same parse, mapping failure to `InvalidAddress` wrapping the
input.  On success `selected_contract_address` is replaced (the validated
input string standing for the parsed address value); on failure the
context is left untouched and the error is `InvalidAddress`.  This is the
same checksummed parse the Type Codec's `address` arm delegates to. -/
def select_contract (keccak : List Nat → List Nat) (ctx : SessionContext)
    (address : String) : SessionContext × Option Error :=
  match parse_checksummed keccak address with
  | .ok _ => ({ ctx with selected_contract_address := some address }, none)
  | .error _ => (ctx, some (.InvalidAddress address))

/-- Rust `param_type.ends_with("[]")`. -/
def endsWithSquares (s : String) : Bool :=
  match s.data.reverse with
  | ']' :: '[' :: _ => true
  | _ => false

/-- Helper of `trimEndSquares` working on the reversed character list. -/
def trimEndSquaresRev : List Char → List Char
  | ']' :: '[' :: rest => trimEndSquaresRev rest
  | cs => cs

/-- Rust `param_type.trim_end_matches("[]")`: strips the suffix `[]`
repeatedly. -/
def trimEndSquares (s : String) : String :=
  String.mk (trimEndSquaresRev s.data.reverse).reverse

/-- Rust `param_type.starts_with("(")`. -/
def startsWithParen (s : String) : Bool :=
  match s.data with
  | '(' :: _ => true
  | _ => false

/-- Network operations of the provider/wallet boundary (spec section 6);
the trace of these is how "no network activity" is observed. -/
inductive NetEvent where
  | call : NetEvent
  | signAndSend : NetEvent
deriving DecidableEq

/-- External collaborators of `execute_method`: the confirmation prompt,
the external ABI codec for the final call payload and for decoding
returned bytes, the provider's stateless call, and the optional wallet
whose value is its `sign_and_send` capability.  Transport failures carry
the provider's message (spec sections 6 and 7). -/
structure Collaborators where
  confirmTransaction : Bool
  encodeInput : List (List Nat) → Except String (List Nat)
  call : String → List Nat → Except String (List Nat)
  decodeOutput : List Nat → Except String String
  wallet : Option (String → List Nat → Except String String)

/-- Outcome of one dispatch: the rendered result or error, plus the trace
of network operations that were performed. -/
structure ExecOut where
  result : Except Error String
  net : List NetEvent
deriving DecidableEq

/-- Scalar codec of the dispatcher's parameter loop (`main.rs`, lines
100-123).  The match arms are those of the source; the error values of the
foreign-error conversions behind each `?` are modelled from the spec's
Type Codec taxonomy (section 4.1), the declarations being absent from
`src/`. -/
def encodeScalarDispatch (keccak : List Nat → List Nat) (param_type : String)
    (value : String) : Except Error (List Nat) :=
  match param_type with
  | "address" =>
    match parse_checksummed keccak value with
    | .ok addr => .ok addr
    | .error _ => .error (.InvalidAddress value)
  | "uint256" | "int256" =>
    match u256FromDec value with
    | some num => .ok (toBeBytes32 num)
    | none => .error (.InvalidArguments value)
  | "bool" =>
    match parseBool value with
    | some true => .ok [1]
    | some false => .ok [0]
    | none => .error (.InvalidArguments value)
  | "string" => .ok (strBytes value)
  | "bytes" =>
    match hexDecodeStr (trimStart0x value) with
    | some bytes => .ok bytes
    | none => .error (.InvalidArguments value)
  | _ => .error (.UnsupportedType param_type)

/-- Parameter-encoding loop of `execute_method` (`main.rs`, lines 85-126):
parameters are zipped with the supplied values; array types go to
`parse_array_or_slice_input` (element type from stripping `[]`), tuple
types to `parse_tuple_input`, scalars to the dispatcher's scalar codec;
the encoded segments are concatenated in order. -/
def encodeParams (keccak : List Nat → List Nat) (inputs : List ParamD)
    (params : List String) : Except Error (List (List Nat)) :=
  ((inputs.zip params).mapM (fun pv =>
    let param_type := pv.1.ty
    if endsWithSquares param_type then
      parse_array_or_slice_input keccak pv.2 (trimEndSquares param_type)
    else if startsWithParen param_type then
      parse_tuple_input keccak pv.2 pv.1.tupleElems
    else
      (encodeScalarDispatch keccak param_type pv.2).map (fun b => [b]))).map
    List.flatten

/-- Embedding of `execute_method` (`main.rs`, lines 84-156): encode the
parameters, require a selected contract address, then either perform the
stateless call (view/pure) decoding its output, or — for a write — ask for
confirmation (an unconfirmed write is the neutral cancelled result),
require the wallet, and sign-and-send.  The trace records every provider
or wallet network operation performed. -/
def executeMethod (keccak : List Nat → List Nat) (ctx : SessionContext)
    (c : Collaborators) (fn : FunctionD) (params : List String) : ExecOut :=
  match encodeParams keccak fn.inputs params with
  | .error e => ⟨.error e, []⟩
  | .ok encoded_params =>
    match ctx.selected_contract_address with
    | none => ⟨.error .NoContractSelected, []⟩
    | some contract_address =>
      if isReadMut fn.state_mutability then
        match c.encodeInput encoded_params with
        | .error e => ⟨.error (.Abi e), []⟩
        | .ok data =>
          match c.call contract_address data with
          | .error e => ⟨.error (.Provider e), [.call]⟩
          | .ok raw =>
            match c.decodeOutput raw with
            | .error e => ⟨.error (.Abi e), [.call]⟩
            | .ok decoded => ⟨.ok decoded, [.call]⟩
      else
        if c.confirmTransaction then
          match c.wallet with
          | none => ⟨.error .NoWalletConfigured, []⟩
          | some signAndSend =>
            match c.encodeInput encoded_params with
            | .error e => ⟨.error (.Abi e), []⟩
            | .ok data =>
              match signAndSend contract_address data with
              | .error e => ⟨.error (.Provider e), [.signAndSend]⟩
              | .ok tx => ⟨.ok ("Transaction sent: " ++ tx), [.signAndSend]⟩
        else ⟨.ok "Transaction cancelled", []⟩

/-- Stand-in hash for evaluating the embedding at concrete inputs: the
theorems that depend on the hash quantify over every hash function, so any
concrete instance may be used to witness them. -/
def keccak0 : List Nat → List Nat := fun _ => List.replicate 32 0

/-- Concrete collaborators for witnesses: confirmation granted, trivial
codec and provider, no wallet. -/
def collOk : Collaborators :=
  { confirmTransaction := true
    encodeInput := fun _ => .ok []
    call := fun _ _ => .ok []
    decodeOutput := fun _ => .ok ""
    wallet := none }

/-- Concrete collaborators for witnesses: same as `collOk` but the
confirmation prompt answers no. -/
def collNo : Collaborators :=
  { collOk with confirmTransaction := false }

theorem toBeAux_length (k : Nat) : ∀ n, (toBeAux k n).length = k := by
  induction k with
  | zero => intro n; rfl
  | succ k ih => intro n; simp [toBeAux, ih]

theorem fromBeBytes_toBeAux (k : Nat) :
    ∀ n, fromBeBytes (toBeAux k n) = n % 256 ^ k := by
  induction k with
  | zero => intro n; simp [toBeAux, fromBeBytes, Nat.mod_one]
  | succ k ih =>
    intro n
    have hsplit : fromBeBytes (toBeAux k (n / 256) ++ [n % 256])
        = fromBeBytes (toBeAux k (n / 256)) * 256 + n % 256 := by
      simp [fromBeBytes, List.foldl_append]
    rw [toBeAux, hsplit, ih]
    rw [pow_succ, mul_comm (256 ^ k) 256, Nat.mod_mul]
    ring

theorem toBeBytes32_length (n : Nat) : (toBeBytes32 n).length = 32 :=
  toBeAux_length 32 n

theorem fromBeBytes_toBeBytes32 (n : Nat) (h : n < 2 ^ 256) :
    fromBeBytes (toBeBytes32 n) = n := by
  have h256 : (256 : Nat) ^ 32 = 2 ^ 256 := by norm_num
  rw [toBeBytes32, fromBeBytes_toBeAux, h256]
  exact Nat.mod_eq_of_lt h

theorem addrFromStr_length (s : String) (bs : List Nat)
    (h : addrFromStr s = some bs) : bs.length = 20 := by
  unfold addrFromStr at h
  by_cases hl : (strip0xOnce s.data).length = 40
  · rw [if_pos hl] at h
    have := hexDecodePairs_length _ _ h
    omega
  · rw [if_neg hl] at h
    exact absurd h (by simp)

/-- C1.  Selecting a contract address delegates to the Type Codec's
checksummed-address parse (`Address::parse_checksummed`, the guard at
`main.rs` line 56 and in `GlobalContext::new`): whenever that parse
rejects the input — in particular for every syntactically hexadecimal
string whose capitalization is not the EIP-55 checksum — selection
fails with `InvalidAddress` and leaves the previously selected contract
address unchanged; an accepted address replaces the selection. -/
theorem c1_select_contract_checksummed (keccak : List Nat → List Nat)
    (ctx : SessionContext) (address : String) :
    (∀ e, parse_checksummed keccak address = .error e →
      select_contract keccak ctx address = (ctx, some (.InvalidAddress address)))
    ∧ (∀ bytes, addrFromStr address = some bytes →
        address ≠ toChecksum keccak bytes →
          select_contract keccak ctx address
            = (ctx, some (.InvalidAddress address)))
    ∧ (∀ bytes, parse_checksummed keccak address = .ok bytes →
        select_contract keccak ctx address
          = ({ ctx with selected_contract_address := some address }, none)) := by
  refine ⟨?_, ?_, ?_⟩
  · intro e he
    simp [select_contract, he]
  · intro bytes hb hne
    by_cases h0 : startsWith0x address = true
    · have he : parse_checksummed keccak address = .error .invalidChecksum := by
        unfold parse_checksummed
        rw [if_pos h0, hb]
        exact if_neg hne
      simp [select_contract, he]
    · have he : parse_checksummed keccak address = .error .hexErr := by
        unfold parse_checksummed
        rw [if_neg h0]
      simp [select_contract, he]
  · intro bytes hb
    simp [select_contract, hb]

/-- C1 witness: the theorem applied at the malformed input `0x12` and at
a syntactically hexadecimal address whose capitalization is not the
EIP-55 checksum under the stand-in hash; both are rejected with
`InvalidAddress` and the context stays unchanged. -/
theorem c1_witness :
    select_contract keccak0 ⟨none⟩ "0x12"
      = (⟨none⟩, some (.InvalidAddress "0x12"))
    ∧ select_contract keccak0 ⟨none⟩ "0xAAAAAAAAAAAAAAAAAAAAAAAAAAAAAAAAAAAAAAAA"
      = (⟨none⟩, some (.InvalidAddress "0xAAAAAAAAAAAAAAAAAAAAAAAAAAAAAAAAAAAAAAAA")) :=
  ⟨(c1_select_contract_checksummed keccak0 ⟨none⟩ "0x12").1 .hexErr (by decide),
   (c1_select_contract_checksummed keccak0 ⟨none⟩
      "0xAAAAAAAAAAAAAAAAAAAAAAAAAAAAAAAAAAAAAAAA").2.1
      (List.replicate 20 170) (by decide) (by decide)⟩

/-- C2.  The claim says `[]` parses to an empty sequence for every
supported element type.  In the code, bracket-stripping leaves the empty
string, whose comma-split is the single empty part, so the result is
never empty: with element type `bool` the empty part fails the boolean
parse. -/
theorem c2_counterexample :
    parse_array_or_slice_input keccak0 "[]" "bool"
      = .error (.InvalidArguments "Invalid boolean: ") := rfl

/-- C2 (amended).  Parsing `[]` never yields an empty sequence: the
single empty part is encoded per element type — one empty segment for
`string` and `bytes`, a scalar-codec failure for `bool`,
`uint256`/`int256` and `address`. -/
theorem c2_empty_bracket_amended (keccak : List Nat → List Nat) :
    parse_array_or_slice_input keccak "[]" "string" = .ok [[]]
    ∧ parse_array_or_slice_input keccak "[]" "bytes" = .ok [[]]
    ∧ parse_array_or_slice_input keccak "[]" "bool"
        = .error (.InvalidArguments "Invalid boolean: ")
    ∧ parse_array_or_slice_input keccak "[]" "uint256"
        = .error (.InvalidArguments "Invalid number: ")
    ∧ parse_array_or_slice_input keccak "[]" "int256"
        = .error (.InvalidArguments "Invalid number: ")
    ∧ parse_array_or_slice_input keccak "[]" "address"
        = .error (.InvalidAddress "Invalid address: ") :=
  ⟨rfl, rfl, rfl, rfl, rfl, rfl⟩

/-- C9.  The claim says at most one leading `0x` prefix is stripped
before hex-decoding, which would make `0x0x12` fail on the non-hex
remainder `0x12`; the code's `trim_start_matches` strips the prefix
repeatedly, so `0x0x12` decodes to the byte `0x12`. -/
theorem c9_counterexample :
    parse_array_or_slice_input keccak0 "0x0x12" "bytes" = .ok [[18]]
    ∧ hexDecodeStr "0x12" = none :=
  ⟨rfl, rfl⟩

/-- C9 (amended).  Every leading `0x` prefix is stripped (prepending
`0x` to a value never changes whether it decodes, or the decoded
bytes); the remainder is hex-decoded, non-hex content failing with
`InvalidArguments`. -/
theorem c9_bytes_amended (keccak : List Nat → List Nat) (v : String) :
    (∀ bs : List Nat,
      encodeArrayElem keccak "bytes" (String.mk ('0' :: 'x' :: v.data)) = .ok bs
        ↔ encodeArrayElem keccak "bytes" v = .ok bs)
    ∧ (∀ bs, hexDecodeStr (trimStart0x v) = some bs →
        encodeArrayElem keccak "bytes" v = .ok bs)
    ∧ (hexDecodeStr (trimStart0x v) = none →
        encodeArrayElem keccak "bytes" v
          = .error (.InvalidArguments ("Invalid hex: " ++ v))) := by
  have key : trimStart0x (String.mk ('0' :: 'x' :: v.data)) = trimStart0x v := by
    simp [trimStart0x, trimStart0xList]
  have e1 : ∀ s : String, encodeArrayElem keccak "bytes" s =
      (match hexDecodeStr (trimStart0x s) with
       | some bytes => .ok bytes
       | none => .error (.InvalidArguments ("Invalid hex: " ++ s))) :=
    fun _ => rfl
  refine ⟨?_, ?_, ?_⟩
  · intro bs
    rw [e1, e1, key]
    cases h : hexDecodeStr (trimStart0x v) <;> simp
  · intro bs h
    rw [e1, h]
  · intro h
    rw [e1, h]

/-- C9 witness: the amended theorem applied at the value `12`, with and
without one `0x` prefix. -/
theorem c9_witness :
    encodeArrayElem keccak0 "bytes" "12" = .ok [18]
    ∧ encodeArrayElem keccak0 "bytes" (String.mk ('0' :: 'x' :: "12".data))
        = .ok [18] :=
  ⟨(c9_bytes_amended keccak0 "12").2.1 [18] rfl,
   ((c9_bytes_amended keccak0 "12").1 [18]).mpr
     ((c9_bytes_amended keccak0 "12").2.1 [18] rfl)⟩

/-- C3.  The claim says every execution with no selected contract fails
with `NoContractSelected`.  Parameter encoding runs first (`main.rs`,
lines 85-126): a malformed array argument fails with `InvalidArguments`
even though no contract is selected, though still with no network
activity. -/
theorem c3_counterexample :
    executeMethod keccak0 ⟨none⟩ collOk
        ⟨"f", [⟨"a", "uint256[]", []⟩], .view⟩ ["[x]"]
      = ⟨.error (.InvalidArguments "Invalid number: x"), []⟩
    ∧ (Error.InvalidArguments "Invalid number: x" ≠ Error.NoContractSelected) :=
  ⟨rfl, by decide⟩

/-- C3 (amended).  With no contract selected, dispatch never performs a
network operation, and whenever argument encoding succeeds it fails with
`NoContractSelected`; an encoding failure aborts even earlier, with the
encoder's error. -/
theorem c3_no_contract_amended (keccak : List Nat → List Nat)
    (ctx : SessionContext) (c : Collaborators) (fn : FunctionD)
    (params : List String) (h : ctx.selected_contract_address = none) :
    (executeMethod keccak ctx c fn params).net = []
    ∧ ∀ enc, encodeParams keccak fn.inputs params = .ok enc →
        (executeMethod keccak ctx c fn params).result
          = .error .NoContractSelected := by
  cases henc : encodeParams keccak fn.inputs params with
  | error e =>
    refine ⟨by simp [executeMethod, henc], ?_⟩
    intro enc hok
    exact absurd hok (by simp)
  | ok enc =>
    exact ⟨by simp [executeMethod, henc, h], fun _ _ => by
      simp [executeMethod, henc, h]⟩

/-- C3 witness: the amended theorem applied at a parameterless view
method with no selected contract. -/
theorem c3_witness :
    (executeMethod keccak0 ⟨none⟩ collOk ⟨"f", [], .view⟩ []).result
      = .error .NoContractSelected
    ∧ (executeMethod keccak0 ⟨none⟩ collOk ⟨"f", [], .view⟩ []).net = [] :=
  ⟨(c3_no_contract_amended keccak0 ⟨none⟩ collOk ⟨"f", [], .view⟩ [] rfl).2 [] rfl,
   (c3_no_contract_amended keccak0 ⟨none⟩ collOk ⟨"f", [], .view⟩ [] rfl).1⟩

/-- C4.  The claim says every unconfirmed write returns the neutral
cancelled result.  Parameter encoding runs before the confirmation step:
a malformed array argument makes an unconfirmed write fail with
`InvalidArguments` instead (still with zero network calls). -/
theorem c4_counterexample :
    executeMethod keccak0 ⟨some "0xAb"⟩ collNo
        ⟨"g", [⟨"a", "uint256[]", []⟩], .nonpayable⟩ ["[x]"]
      = ⟨.error (.InvalidArguments "Invalid number: x"), []⟩
    ∧ (executeMethod keccak0 ⟨some "0xAb"⟩ collNo
        ⟨"g", [⟨"a", "uint256[]", []⟩], .nonpayable⟩ ["[x]"]).result
      ≠ .ok "Transaction cancelled" :=
  ⟨rfl, by decide⟩

/-- C4 (amended).  A write dispatch whose confirmation collaborator does
not answer `true` performs zero network calls, and whenever argument
encoding succeeded and a contract is selected it returns the neutral
cancelled result; earlier validation failures return their own error,
still with no network calls. -/
theorem c4_unconfirmed_write_amended (keccak : List Nat → List Nat)
    (ctx : SessionContext) (c : Collaborators) (fn : FunctionD)
    (params : List String)
    (hw : isReadMut fn.state_mutability = false)
    (hc : c.confirmTransaction = false) :
    (executeMethod keccak ctx c fn params).net = []
    ∧ ∀ enc addr, encodeParams keccak fn.inputs params = .ok enc →
        ctx.selected_contract_address = some addr →
        (executeMethod keccak ctx c fn params).result
          = .ok "Transaction cancelled" := by
  cases henc : encodeParams keccak fn.inputs params with
  | error e =>
    refine ⟨by simp [executeMethod, henc], ?_⟩
    intro enc addr hok
    exact absurd hok (by simp)
  | ok enc =>
    cases hsel : ctx.selected_contract_address with
    | none =>
      refine ⟨by simp [executeMethod, henc, hsel], ?_⟩
      intro enc2 addr hok hsel2
      exact absurd hsel2 (by simp)
    | some addr =>
      exact ⟨by simp [executeMethod, henc, hsel, hw, hc],
        fun _ _ _ _ => by simp [executeMethod, henc, hsel, hw, hc]⟩

/-- C4 witness: the amended theorem applied at a parameterless
nonpayable method with a selected contract and a declined
confirmation. -/
theorem c4_witness :
    (executeMethod keccak0 ⟨some "0xAb"⟩ collNo ⟨"g", [], .nonpayable⟩ []).result
      = .ok "Transaction cancelled"
    ∧ (executeMethod keccak0 ⟨some "0xAb"⟩ collNo ⟨"g", [], .nonpayable⟩ []).net
      = [] :=
  ⟨(c4_unconfirmed_write_amended keccak0 ⟨some "0xAb"⟩ collNo
      ⟨"g", [], .nonpayable⟩ [] rfl rfl).2 [] "0xAb" rfl rfl,
   (c4_unconfirmed_write_amended keccak0 ⟨some "0xAb"⟩ collNo
      ⟨"g", [], .nonpayable⟩ [] rfl rfl).1⟩

/-- C5.  Every decimal string accepted by the 256-bit parser encodes
under `uint256` to the 32-byte big-endian representation whose integer
interpretation is the parsed value (necessarily below `2 ^ 256`), and
every rejected value fails with `InvalidArguments`. -/
theorem c5_uint256_roundtrip (keccak : List Nat → List Nat) (s : String) :
    (∀ n, u256FromDec s = some n →
      encodeArrayElem keccak "uint256" s = .ok (toBeBytes32 n)
      ∧ (toBeBytes32 n).length = 32
      ∧ fromBeBytes (toBeBytes32 n) = n
      ∧ n < 2 ^ 256)
    ∧ (u256FromDec s = none →
        encodeArrayElem keccak "uint256" s
          = .error (.InvalidArguments ("Invalid number: " ++ s))) := by
  have e1 : encodeArrayElem keccak "uint256" s =
      (match u256FromDec s with
       | some num => .ok (toBeBytes32 num)
       | none => .error (.InvalidArguments ("Invalid number: " ++ s))) := rfl
  constructor
  · intro n hn
    have hlt : n < 2 ^ 256 := by
      unfold u256FromDec at hn
      dsimp only [] at hn
      split at hn
      · exact absurd hn (by simp)
      · split at hn
        · exact absurd hn (by simp)
        · split at hn
          · rename_i hn2
            simp only [Option.some.injEq] at hn
            omega
          · exact absurd hn (by simp)
    exact ⟨by rw [e1, hn], toBeBytes32_length n,
      fromBeBytes_toBeBytes32 n hlt, hlt⟩
  · intro hn
    rw [e1, hn]

/-- C5 witness: the round-trip theorem applied at the decimal string
`7`. -/
theorem c5_witness :
    encodeArrayElem keccak0 "uint256" "7" = .ok (toBeBytes32 7)
    ∧ (toBeBytes32 7).length = 32
    ∧ fromBeBytes (toBeBytes32 7) = 7
    ∧ 7 < 2 ^ 256 :=
  (c5_uint256_roundtrip keccak0 "7").1 7 rfl

/-- C6.  Tuple parsing fails with `InvalidArguments` reporting the
expected and actual counts whenever the comma-split part count differs
from the element-type count; with matching counts each part is encoded
per its positional type, as in the spec's example `(1, true, 0x1234)`
against `[uint256, bool, bytes]`, whose three segments have lengths 32,
1 and 2. -/
theorem c6_tuple_parsing (keccak : List Nat → List Nat) (input : String)
    (param_types : List String) :
    ((partsOf '(' ')' input).length ≠ param_types.length →
      parse_tuple_input keccak input param_types
        = .error (.InvalidArguments ("Tuple input length mismatch: expected "
            ++ toString param_types.length ++ ", got "
            ++ toString (partsOf '(' ')' input).length)))
    ∧ parse_tuple_input keccak "(1, true, 0x1234)" ["uint256", "bool", "bytes"]
        = .ok [toBeBytes32 1, [1], [18, 52]]
    ∧ (toBeBytes32 1).length = 32
    ∧ ([1] : List Nat).length = 1
    ∧ ([18, 52] : List Nat).length = 2 := by
  refine ⟨?_, rfl, toBeBytes32_length 1, rfl, rfl⟩
  intro h
  unfold parse_tuple_input
  dsimp only []
  rw [if_pos h]

/-- C6 witness: three parts against two element types report the
mismatch with both counts. -/
theorem c6_witness :
    parse_tuple_input keccak0 "(1, true, 0x1234)" ["uint256", "bool"]
      = .error (.InvalidArguments ("Tuple input length mismatch: expected "
          ++ toString (["uint256", "bool"] : List String).length ++ ", got "
          ++ toString (partsOf '(' ')' "(1, true, 0x1234)").length)) :=
  (c6_tuple_parsing keccak0 "(1, true, 0x1234)" ["uint256", "bool"]).1 (by decide)

/-- C8.  Every address string accepted by the checksummed parser encodes
under the `address` tag to exactly its 20 address bytes; every string
the parser rejects (malformed hex or wrong checksum) fails with
`InvalidAddress`. -/
theorem c8_address_encode (keccak : List Nat → List Nat) (s : String) :
    (∀ bytes, parse_checksummed keccak s = .ok bytes →
      encodeArrayElem keccak "address" s = .ok bytes ∧ bytes.length = 20)
    ∧ ∀ e, parse_checksummed keccak s = .error e →
        encodeArrayElem keccak "address" s
          = .error (.InvalidAddress ("Invalid address: " ++ s)) := by
  have e1 : encodeArrayElem keccak "address" s =
      (match parse_checksummed keccak s with
       | .ok addr => .ok addr
       | .error _ => .error (.InvalidAddress ("Invalid address: " ++ s))) := rfl
  constructor
  · intro bytes hb
    refine ⟨by rw [e1, hb], ?_⟩
    unfold parse_checksummed at hb
    split at hb
    · split at hb
      · rename_i bs ha
        split at hb
        · simp only [Except.ok.injEq] at hb
          exact hb ▸ addrFromStr_length s bs ha
        · exact absurd hb (by simp)
      · exact absurd hb (by simp)
    · exact absurd hb (by simp)
  · intro e he
    rw [e1, he]

/-- C8 witness: the all-zero address, whose EIP-55 rendering under the
stand-in hash is itself, encodes to its 20 zero bytes. -/
theorem c8_witness :
    encodeArrayElem keccak0 "address" "0x0000000000000000000000000000000000000000"
      = .ok (List.replicate 20 0)
    ∧ (List.replicate 20 (0 : Nat)).length = 20 :=
  (c8_address_encode keccak0 "0x0000000000000000000000000000000000000000").1
    (List.replicate 20 0) (by decide)

theorem classifyStep_read (acc : MethodMaps) (f : FunctionD) (name : String) :
    (classifyStep acc f).read name
      = if (decide (f.name = name) && isReadMut f.state_mutability) = true
          then some f else acc.read name := by
  unfold classifyStep
  by_cases hr : isReadMut f.state_mutability
  · by_cases hn : name = f.name <;>
      simp [hr, hn, mapInsert, eq_comm]
  · simp only [Bool.not_eq_true] at hr
    simp [hr]

theorem classifyStep_write (acc : MethodMaps) (f : FunctionD) (name : String) :
    (classifyStep acc f).write name
      = if (decide (f.name = name) && !isReadMut f.state_mutability) = true
          then some f else acc.write name := by
  unfold classifyStep
  by_cases hr : isReadMut f.state_mutability
  · simp [hr]
  · simp only [Bool.not_eq_true] at hr
    by_cases hn : name = f.name <;>
      simp [hr, hn, mapInsert, eq_comm]

theorem classifyStep_all (acc : MethodMaps) (f : FunctionD) (name : String) :
    (classifyStep acc f).all name
      = if decide (f.name = name) = true then some f else acc.all name := by
  unfold classifyStep
  by_cases hr : isReadMut f.state_mutability <;>
    by_cases hn : name = f.name <;>
      simp [hr, hn, mapInsert, eq_comm]

theorem classify_foldl (fns : List FunctionD) :
    ∀ (acc : MethodMaps) (name : String),
      ((fns.foldl classifyStep acc).read name
        = lastMatchingAux
            (fun f => decide (f.name = name) && isReadMut f.state_mutability)
            (acc.read name) fns)
      ∧ ((fns.foldl classifyStep acc).write name
        = lastMatchingAux
            (fun f => decide (f.name = name) && !isReadMut f.state_mutability)
            (acc.write name) fns)
      ∧ ((fns.foldl classifyStep acc).all name
        = lastMatchingAux (fun f => decide (f.name = name))
            (acc.all name) fns) := by
  induction fns with
  | nil => intro acc name; exact ⟨rfl, rfl, rfl⟩
  | cons f rest ih =>
    intro acc name
    have h := ih (classifyStep acc f) name
    refine ⟨?_, ?_, ?_⟩
    · rw [List.foldl_cons, h.1, lastMatchingAux, classifyStep_read]
    · rw [List.foldl_cons, h.2.1, lastMatchingAux, classifyStep_write]
    · rw [List.foldl_cons, h.2.2, lastMatchingAux, classifyStep_all]

/-- C7.  `get_methods_by_type` partitions a method list in one pass:
looked up by name, the Read map holds the last listed view-or-pure
method of that name, the Write map the last listed method of every other
mutability, and the All map the last listed method of that name
regardless — name collisions resolved last-write-wins in iteration
order.  The function is total (it never errors), and the empty method
list yields the empty map for every filter. -/
theorem c7_classification (fns : List FunctionD) (name : String) :
    get_methods_by_type fns .Read name
      = lastMatching
          (fun f => decide (f.name = name) && isReadMut f.state_mutability) fns
    ∧ get_methods_by_type fns .Write name
      = lastMatching
          (fun f => decide (f.name = name) && !isReadMut f.state_mutability) fns
    ∧ get_methods_by_type fns .All name
      = lastMatching (fun f => decide (f.name = name)) fns
    ∧ (∀ mt : MethodType, get_methods_by_type [] mt name = none) := by
  have h := classify_foldl fns ⟨mapEmpty, mapEmpty, mapEmpty⟩ name
  exact ⟨h.1, h.2.1, h.2.2, fun mt => by cases mt <;> rfl⟩

theorem all_false_dropWhile (p : Char → Bool) (v : List Char)
    (hv : ∀ c ∈ v, p c = false) : v.dropWhile p = v := by
  cases v with
  | nil => rfl
  | cons a l => rw [List.dropWhile_cons, hv a (by simp)]; simp

theorem listTrim_wrap (o cl : Char) (v : List Char)
    (how : o.isWhitespace = false) (hcw : cl.isWhitespace = false) :
    listTrim (o :: (v ++ [cl])) = o :: (v ++ [cl]) := by
  unfold listTrim
  rw [List.dropWhile_cons, how]
  simp only [Bool.false_eq_true, if_false]
  rw [show (o :: (v ++ [cl])).reverse = cl :: (v.reverse ++ [o]) by simp]
  rw [List.dropWhile_cons, hcw]
  simp

theorem trimMatches_wrap (p : Char → Bool) (o cl : Char) (v : List Char)
    (ho : p o = true) (hc : p cl = true)
    (hv : ∀ c ∈ v, p c = false) :
    trimMatchesList p (o :: (v ++ [cl])) = v := by
  unfold trimMatchesList
  rw [List.dropWhile_cons, ho]
  simp only [if_true]
  cases v with
  | nil => simp [List.dropWhile_cons, hc]
  | cons a l =>
    have ha : p a = false := hv a (by simp)
    rw [List.cons_append, List.dropWhile_cons, ha]
    simp only [Bool.false_eq_true, if_false]
    rw [show (a :: (l ++ [cl])).reverse = cl :: (l.reverse ++ [a]) by simp]
    rw [List.dropWhile_cons, hc]
    simp only [if_true]
    rw [all_false_dropWhile p (l.reverse ++ [a]) ?hall]
    case hall =>
      intro c hcmem
      rcases List.mem_append.mp hcmem with hcl | hca
      · exact hv c (List.mem_cons_of_mem a (List.mem_reverse.mp hcl))
      · rw [List.mem_singleton.mp hca]; exact ha
    simp

theorem splitOnComma_no_comma (v : List Char) (hv : ∀ c ∈ v, c ≠ ',') :
    splitOnComma v = [v] := by
  induction v with
  | nil => rfl
  | cons c l ih =>
    have hc : ¬(c = ',') := hv c (by simp)
    simp only [splitOnComma, if_neg hc]
    rw [ih (fun x hx => hv x (List.mem_cons_of_mem c hx))]

theorem partsOf_wrap (o cl : Char) (v : List Char)
    (how : o.isWhitespace = false) (hcw : cl.isWhitespace = false)
    (hv : ∀ c ∈ v, (decide (c = o) || decide (c = cl)) = false)
    (hvc : ∀ c ∈ v, c ≠ ',') :
    partsOf o cl (String.mk (o :: (v ++ [cl]))) = [String.mk (listTrim v)] := by
  unfold partsOf
  dsimp only []
  rw [listTrim_wrap o cl v how hcw]
  rw [trimMatches_wrap _ o cl v (by simp) (by simp) hv]
  rw [splitOnComma_no_comma v hvc]
  rfl

theorem encode_elems_agree (keccak : List Nat → List Nat) (t : String)
    (ht : t ∈ (["address", "uint256", "int256", "bool", "string", "bytes"] :
      List String)) (part : String) :
    encodeArrayElem keccak t part = encodeTupleElem keccak t part := by
  simp only [List.mem_cons, List.not_mem_nil, or_false] at ht
  rcases ht with rfl | rfl | rfl | rfl | rfl | rfl <;> rfl

/-- C10.  For every supported scalar type tag and every value free of
commas, square brackets and parentheses, the one-element array `[v]` and
the one-element tuple `(v)` encode identically: the same single-segment
sequence, or the very same error. -/
theorem c10_singleton_equiv (keccak : List Nat → List Nat) (t v : String)
    (ht : t ∈ (["address", "uint256", "int256", "bool", "string", "bytes"] :
      List String))
    (hv : ∀ c ∈ v.data, c ≠ ',' ∧ c ≠ '[' ∧ c ≠ ']' ∧ c ≠ '(' ∧ c ≠ ')') :
    parse_array_or_slice_input keccak ("[" ++ v ++ "]") t
      = parse_tuple_input keccak ("(" ++ v ++ ")") [t] := by
  have harr : ("[" ++ v ++ "]" : String) = String.mk ('[' :: (v.data ++ [']'])) := by
    obtain ⟨l⟩ := v; rfl
  have htup : ("(" ++ v ++ ")" : String) = String.mk ('(' :: (v.data ++ [')'])) := by
    obtain ⟨l⟩ := v; rfl
  have hva : ∀ c ∈ v.data, (decide (c = '[') || decide (c = ']')) = false := by
    intro c hc
    have h := hv c hc
    simp [h.2.1, h.2.2.1]
  have hvt : ∀ c ∈ v.data, (decide (c = '(') || decide (c = ')')) = false := by
    intro c hc
    have h := hv c hc
    simp [h.2.2.2.1, h.2.2.2.2]
  have hvc : ∀ c ∈ v.data, c ≠ ',' := fun c hc => (hv c hc).1
  have hp1 : partsOf '[' ']' ("[" ++ v ++ "]") = [String.mk (listTrim v.data)] := by
    rw [harr]
    exact partsOf_wrap '[' ']' v.data (by decide) (by decide) hva hvc
  have hp2 : partsOf '(' ')' ("(" ++ v ++ ")") = [String.mk (listTrim v.data)] := by
    rw [htup]
    exact partsOf_wrap '(' ')' v.data (by decide) (by decide) hvt hvc
  unfold parse_array_or_slice_input parse_tuple_input
  rw [hp1, hp2]
  dsimp only []
  rw [if_neg (by simp)]
  simp only [List.zip, List.zipWith, List.mapM, List.mapM.loop]
  rw [encode_elems_agree keccak t ht (String.mk (listTrim v.data))]

/-- C10 witness: the equivalence applied at type `bool` and value
`true`. -/
theorem c10_witness :
    parse_array_or_slice_input keccak0 ("[" ++ "true" ++ "]") "bool"
      = parse_tuple_input keccak0 ("(" ++ "true" ++ ")") ["bool"] :=
  c10_singleton_equiv keccak0 "bool" "true" (by decide) (by decide)
